import Mathlib

/-!
Verification of the project-manager program (src/src/main.rs).

The program parses `Cargo.toml` manifests, discovers projects under a root
directory into a `BTreeMap<String, ProjectInfo>`, and runs an interactive
selection loop over standard input.  The embedding below mirrors the source
function by function:

* `FsPath` models `std::path::PathBuf` as a list of components;
* `Toml` models `toml::Value` (tables, strings, and non-string scalars);
* `parse_cargo_toml` mirrors the Rust function of the same name, with the
  file-read-and-parse outcome passed in as `Option Toml` (`none` covers an
  unreadable file and a parse error alike);
* `find_projects` mirrors the directory scan; the `BTreeMap` is embedded as a
  strictly name-sorted association list with `btreeInsert` as `BTreeMap::insert`;
  the `fs::read_dir` outcome is passed in as `Option (List DirEntry)`;
* `display_projects` / `handle_input` / `run_loop` mirror the interactive
  session, with standard input as a list of lines and standard output as the
  returned list of printed pieces.  The `usize` subtraction `index - 1` is
  embedded with wrapping (release-build) semantics, `% 2 ^ 64`.
-/

/-- Model of `std::path::PathBuf`: a list of path components. -/
structure FsPath where
  components : List String
deriving Repr, DecidableEq

/-- `Path::join`: append one component (the Rust code only ever joins
relative suffixes such as `Cargo.toml` or `target/release`). -/
def FsPath.join (p : FsPath) (c : String) : FsPath :=
  ⟨p.components ++ [c]⟩

/-- `Path::parent`: drop the last component; `None` when there is nothing
to drop. -/
def FsPath.parent (p : FsPath) : Option FsPath :=
  match p.components with
  | [] => none
  | cs => some ⟨cs.dropLast⟩

/-- The textual rendering of a path, components joined by `/`. -/
def FsPath.render (p : FsPath) : String :=
  String.intercalate ("/") p.components

/-- `Path::to_str`: in this model every path is valid UTF-8. -/
def FsPath.to_str (p : FsPath) : Option String :=
  some p.render

/-- The `{:?}` (Debug) rendering of a path: quoted. -/
def FsPath.debugRepr (p : FsPath) : String :=
  "\"" ++ p.render ++ "\""

/-- Model of `toml::Value`: tables, strings, and non-string scalars. -/
inductive Toml where
  | str : String → Toml
  | integer : Int → Toml
  | boolean : Bool → Toml
  | table : List (String × Toml) → Toml

/-- Key lookup in a TOML table (TOML tables have unique keys; first match). -/
def lookupToml (key : String) : List (String × Toml) → Option Toml
  | [] => none
  | (k, v) :: rest => if key = k then some v else lookupToml key rest

/-- `Value::get`: index into a table by key; `None` on a non-table. -/
def Toml.get (v : Toml) (key : String) : Option Toml :=
  match v with
  | .table kvs => lookupToml key kvs
  | _ => none

/-- `Value::as_str`: `Some` exactly on string values. -/
def Toml.as_str : Toml → Option String
  | .str s => some s
  | _ => none

/-- Mirror of the Rust `ProjectInfo` struct. -/
structure ProjectInfo where
  name : String
  description : Option String
  path : FsPath
deriving Repr, DecidableEq

/-- Mirror of `parse_cargo_toml(path) -> Option<ProjectInfo>`.  `doc` is the
outcome of `fs::read_to_string(path).ok()?` followed by `.parse().ok()?`:
`none` covers both an unreadable file and a parse error. -/
def parse_cargo_toml (path : FsPath) (doc : Option Toml) : Option ProjectInfo := do
  let parsed ← doc
  let package ← parsed.get ("package")
  let nameVal ← package.get ("name")
  let name ← nameVal.as_str
  let description := (package.get ("description")).bind Toml.as_str
  let parent ← path.parent
  some { name := name, description := description, path := parent }

/-- One entry of `fs::read_dir` (already `filter_map(Result::ok)`-ed):
its file name, whether `path.is_dir()`, whether `path/Cargo.toml` exists,
and the read-and-parse outcome of that manifest. -/
structure DirEntry where
  name : String
  is_dir : Bool
  hasManifest : Bool
  manifest : Option Toml

/-- Lexicographic strict comparison of character lists, the order that `Ord for String` induces in Rust (byte-wise comparison of UTF-8 agrees with
scalar-value order). -/
def charsLtB : List Char → List Char → Bool
  | _, [] => false
  | [], _ :: _ => true
  | c :: cs, d :: ds =>
    if c < d then true
    else if d < c then false
    else charsLtB cs ds

/-- `Ord::lt` on strings. -/
def strLtB (a b : String) : Bool := charsLtB a.data b.data

/-- `BTreeMap::insert` on the sorted-association-list embedding: keeps keys
strictly sorted and replaces the value of an existing key. -/
def btreeInsert (k : String) (v : ProjectInfo) :
    List (String × ProjectInfo) → List (String × ProjectInfo)
  | [] => [(k, v)]
  | (k₂, v₂) :: rest =>
    if strLtB k k₂ then (k, v) :: (k₂, v₂) :: rest
    else if k = k₂ then (k, v) :: rest
    else (k₂, v₂) :: btreeInsert k v rest

/-- The `ProjectInfo` one directory entry contributes: the body of the
`for` loop in `find_projects` up to the insert. -/
def entry_project (root : FsPath) (entry : DirEntry) : Option ProjectInfo :=
  if entry.is_dir then
    if entry.hasManifest then
      parse_cargo_toml ((root.join entry.name).join ("Cargo.toml")) entry.manifest
    else none
  else none

/-- One iteration of the `for` loop in `find_projects`: parse the entry and
insert the result into the map keyed by `info.name`. -/
def scan_entry (root : FsPath) (acc : List (String × ProjectInfo))
    (entry : DirEntry) : List (String × ProjectInfo) :=
  match entry_project root entry with
  | some info => btreeInsert info.name info acc
  | none => acc

/-- Result of `find_projects` together with what it printed to stderr. -/
structure FindResult where
  projects : List (String × ProjectInfo)
  err_lines : List String
deriving Repr, DecidableEq

/-- Mirror of `find_projects(root) -> BTreeMap<String, ProjectInfo>`.
`listing` is the outcome of `fs::read_dir(root)`: `none` is the `Err` case,
which prints a diagnostic to stderr and yields the empty map. -/
def find_projects (root : FsPath) (listing : Option (List DirEntry)) : FindResult :=
  match listing with
  | some entries => ⟨entries.foldl (scan_entry root) [], []⟩
  | none => ⟨[], ["Could not read directory: " ++ root.debugRepr]⟩

/-- `usize` is 64-bit in the observed build. -/
def USIZE : Nat := 2 ^ 64

/-- `str::trim`: strip leading and trailing whitespace. -/
def rustTrim (s : String) : String :=
  ⟨((s.data.dropWhile Char.isWhitespace).reverse.dropWhile
      Char.isWhitespace).reverse⟩

/-- Lowercase one character (ASCII range; the only character the session
compares against is `q`, whose sole uppercase preimage is ASCII `Q`). -/
def lowerChar (c : Char) : Char :=
  if 65 ≤ c.toNat ∧ c.toNat ≤ 90 then Char.ofNat (c.toNat + 32) else c

/-- `str::to_lowercase`. -/
def rustToLower (s : String) : String := ⟨s.data.map lowerChar⟩

/-- Mirror of `str::parse::<usize>`: optional leading `+`, then one or more
ASCII digits, rejecting values that overflow `usize`. -/
def parseUsize (s : String) : Option Nat :=
  let digits :=
    match s.data with
    | '+' :: rest => rest
    | l => l
  if digits.isEmpty then none
  else if digits.all Char.isDigit then
    let n := digits.foldl (fun acc c => acc * 10 + (c.toNat - 48)) 0
    if n < USIZE then some n else none
  else none

/-- The `{:?}` (Debug) rendering of an `Option<&str>`. -/
def reprOptStr : Option String → String
  | some s => "Some(\"" ++ s ++ "\")"
  | none => "None"

/-- Mirror of `display_project_details`: the four `println!` outputs (the
first carries the leading blank line of the format string). -/
def project_details_lines (info : ProjectInfo) : List String :=
  ["\nProject Details:",
   "Project Name: " ++ info.name,
   "Description: " ++ info.description.getD ("No description"),
   "Path: " ++ info.path.debugRepr,
   "You can run this project from: " ++
     reprOptStr (info.path.join ("target/release")).to_str]

/-- The numbered listing printed by `display_projects`:
`"{index+1}. {name} - {description | No description}"` in map order. -/
def listing_lines (projects : List (String × ProjectInfo)) : List String :=
  projects.enum.map (fun p =>
    toString (p.1 + 1) ++ ". " ++ p.2.1 ++ " - " ++
      p.2.2.description.getD ("No description"))

/-- One iteration of the interactive loop body on one line of input:
the pieces printed and whether the loop `break`s.  `index - 1` on `usize`
is embedded with wrapping semantics, `(index + 2^64 - 1) % 2^64`. -/
def handle_input (projects : List (String × ProjectInfo)) (raw : String) :
    List String × Bool :=
  let input := rustTrim raw
  if rustToLower input = "q" then (["Exiting program..."], true)
  else
    match parseUsize input with
    | some index =>
      match projects.get? ((index + USIZE - 1) % USIZE) with
      | some kv => (project_details_lines kv.2, false)
      | none => (["Invalid selection. Please enter a valid project number."], false)
    | none => (["Please enter a valid number or \x27q\x27 to quit."], false)

/-- The interactive loop over a list of input lines: each iteration prints
the `"> "` prompt, handles the line, and continues unless it broke. -/
def run_loop (projects : List (String × ProjectInfo)) : List String → List String
  | [] => []
  | raw :: rest =>
    match handle_input projects raw with
    | (out, true) => "> " :: out
    | (out, false) => "> " :: out ++ run_loop projects rest

/-- Mirror of `display_projects`: empty-map early return, the numbered
listing, the instruction line, then the interactive loop. -/
def display_projects (projects : List (String × ProjectInfo))
    (inputs : List String) : List String :=
  if projects.isEmpty then ["No Rust projects found."]
  else
    listing_lines projects
      ++ ["Enter the number of the project to view details, or \x27q\x27 to quit:"]
      ++ run_loop projects inputs

/-! ### Spec-side descriptions used by the refinement statements -/

/-- The projects the entries of a directory listing successfully contribute,
in filesystem-enumeration order. -/
def successful_infos (root : FsPath) (entries : List DirEntry) : List ProjectInfo :=
  entries.filterMap (entry_project root)

/-- The names of the successfully parsed projects, in enumeration order. -/
def successful_names (root : FsPath) (entries : List DirEntry) : List String :=
  (successful_infos root entries).map ProjectInfo.name

/-- The key column of the embedded `BTreeMap`. -/
def keys (l : List (String × ProjectInfo)) : List String :=
  l.map Prod.fst

/-- Lookup by key in the embedded `BTreeMap` (first match). -/
def lookupKey (x : String) : List (String × ProjectInfo) → Option ProjectInfo
  | [] => none
  | (k, v) :: rest => if x = k then some v else lookupKey x rest

/-- Left-biased choice on `Option`. -/
def optOr : Option ProjectInfo → Option ProjectInfo → Option ProjectInfo
  | some a, _ => some a
  | none, b => b

/-- The last element of the list whose `name` is `x`, if any: the
phrase of the spec: the later-discovered one replaces the earlier one. -/
def last_with_name (x : String) : List ProjectInfo → Option ProjectInfo
  | [] => none
  | i :: rest =>
    optOr (last_with_name x rest) (if i.name = x then some i else none)

/-! ### The two-project scenario of the spec -/

/-- Manifest of the scenario project `alpha`: a name and no description. -/
def alphaManifest : Toml :=
  Toml.table [("package", Toml.table [("name", Toml.str ("alpha"))])]

/-- Manifest of the scenario project `beta`: name and description `demo`. -/
def betaManifest : Toml :=
  Toml.table [("package",
    Toml.table [("name", Toml.str ("beta")), ("description", Toml.str ("demo"))])]

/-- The scenario root directory `<home>/rust`. -/
def scenarioRoot : FsPath := ⟨["home", "user", "rust"]⟩

/-- The scenario directory listing: subdirectories `alpha` and `beta`,
each holding its manifest. -/
def scenarioEntries : List DirEntry :=
  [⟨"alpha", true, true, some alphaManifest⟩,
   ⟨"beta", true, true, some betaManifest⟩]

/-- The collection discovered in the scenario. -/
def scenarioProjects : List (String × ProjectInfo) :=
  (find_projects scenarioRoot (some scenarioEntries)).projects

/-! ### Helper lemmas about the BTreeMap embedding -/

theorem keys_cons (k : String) (v : ProjectInfo) (l : List (String × ProjectInfo)) :
    keys ((k, v) :: l) = k :: keys l := rfl

theorem charsLtB_iff (l₁ l₂ : List Char) : charsLtB l₁ l₂ = true ↔ l₁ < l₂ := by
  induction l₁ generalizing l₂ with
  | nil =>
    cases l₂ with
    | nil =>
      constructor
      · intro h
        simp [charsLtB] at h
      · intro h
        cases h
    | cons d ds =>
      constructor
      · intro _
        exact List.Lex.nil
      · intro _
        rfl
  | cons c cs ih =>
    cases l₂ with
    | nil =>
      constructor
      · intro h
        simp [charsLtB] at h
      · intro h
        cases h
    | cons d ds =>
      by_cases h₁ : c < d
      · constructor
        · intro _
          exact List.Lex.rel h₁
        · intro _
          simp [charsLtB, h₁]
      · by_cases h₂ : d < c
        · constructor
          · intro h
            simp [charsLtB, h₁, h₂] at h
          · intro h
            cases h with
            | cons h => exact absurd h₂ (lt_irrefl _)
            | rel h => exact absurd h h₁
        · have hcd : c = d := le_antisymm (not_lt.mp h₂) (not_lt.mp h₁)
          subst hcd
          rw [show charsLtB (c :: cs) (c :: ds) = charsLtB cs ds by
            simp [charsLtB, h₁], ih]
          constructor
          · intro h
            exact List.Lex.cons h
          · intro h
            cases h with
            | cons h => exact h
            | rel h => exact absurd h h₁

theorem strLtB_iff (a b : String) : strLtB a b = true ↔ a < b := by
  rw [strLtB, charsLtB_iff]
  exact String.lt_iff_toList_lt.symm

theorem mem_keys_btreeInsert (a k : String) (v : ProjectInfo)
    (l : List (String × ProjectInfo)) :
    a ∈ keys (btreeInsert k v l) ↔ a = k ∨ a ∈ keys l := by
  induction l with
  | nil => simp [btreeInsert, keys]
  | cons hd tl ih =>
    obtain ⟨k₂, v₂⟩ := hd
    by_cases h₁ : strLtB k k₂ = true
    · rw [btreeInsert, if_pos h₁, keys_cons, keys_cons]
      simp only [List.mem_cons]
    · by_cases h₂ : k = k₂
      · subst h₂
        rw [btreeInsert, if_neg h₁, if_pos rfl, keys_cons, keys_cons]
        simp only [List.mem_cons]
        tauto
      · rw [btreeInsert, if_neg h₁, if_neg h₂, keys_cons, keys_cons]
        simp only [List.mem_cons, ih]
        tauto

theorem sorted_keys_btreeInsert (k : String) (v : ProjectInfo)
    (l : List (String × ProjectInfo)) (h : (keys l).Sorted (· < ·)) :
    (keys (btreeInsert k v l)).Sorted (· < ·) := by
  induction l with
  | nil => simp [btreeInsert, keys]
  | cons hd tl ih =>
    obtain ⟨k₂, v₂⟩ := hd
    rw [keys_cons, List.sorted_cons] at h
    obtain ⟨hall, htl⟩ := h
    by_cases h₁ : strLtB k k₂ = true
    · have hlt : k < k₂ := (strLtB_iff k k₂).mp h₁
      rw [btreeInsert, if_pos h₁, keys_cons, keys_cons, List.sorted_cons]
      refine ⟨?_, ?_⟩
      · intro b hb
        rcases List.mem_cons.mp hb with hb | hb
        · exact hb ▸ hlt
        · exact lt_trans hlt (hall b hb)
      · rw [List.sorted_cons]
        exact ⟨hall, htl⟩
    · have hnlt : ¬k < k₂ := fun h => h₁ ((strLtB_iff k k₂).mpr h)
      by_cases h₂ : k = k₂
      · subst h₂
        rw [btreeInsert, if_neg h₁, if_pos rfl, keys_cons, List.sorted_cons]
        exact ⟨hall, htl⟩
      · have hk₂ : k₂ < k := lt_of_le_of_ne (not_lt.mp hnlt) (Ne.symm h₂)
        rw [btreeInsert, if_neg h₁, if_neg h₂, keys_cons, List.sorted_cons]
        refine ⟨?_, ih htl⟩
        intro b hb
        rcases (mem_keys_btreeInsert b k v tl).mp hb with hb | hb
        · exact hb ▸ hk₂
        · exact hall b hb

theorem lookupKey_btreeInsert (x k : String) (v : ProjectInfo)
    (l : List (String × ProjectInfo)) :
    lookupKey x (btreeInsert k v l) = if x = k then some v else lookupKey x l := by
  induction l with
  | nil => simp [btreeInsert, lookupKey]
  | cons hd tl ih =>
    obtain ⟨k₂, v₂⟩ := hd
    by_cases h₁ : strLtB k k₂ = true
    · rw [btreeInsert, if_pos h₁]
      simp [lookupKey]
    · by_cases h₂ : k = k₂
      · subst h₂
        rw [btreeInsert, if_neg h₁, if_pos rfl]
        by_cases hx : x = k
        · simp [lookupKey, hx]
        · simp [lookupKey, hx]
      · rw [btreeInsert, if_neg h₁, if_neg h₂]
        by_cases hx₂ : x = k₂
        · have hxk : x ≠ k := fun h => h₂ (h.symm.trans hx₂)
          simp [lookupKey, hx₂, hxk, Ne.symm h₂]
        · simp [lookupKey, hx₂, ih]

theorem key_eq_name_btreeInsert (k : String) (v : ProjectInfo)
    (l : List (String × ProjectInfo)) (hk : k = v.name)
    (h : ∀ p ∈ l, Prod.fst p = (Prod.snd p).name) :
    ∀ p ∈ btreeInsert k v l, Prod.fst p = (Prod.snd p).name := by
  induction l with
  | nil =>
    intro p hp
    rw [btreeInsert, List.mem_singleton] at hp
    exact hp ▸ hk
  | cons hd tl ih =>
    obtain ⟨k₂, v₂⟩ := hd
    intro p hp
    by_cases h₁ : strLtB k k₂ = true
    · rw [btreeInsert, if_pos h₁] at hp
      rcases List.mem_cons.mp hp with hp | hp
      · exact hp ▸ hk
      · exact h p hp
    · by_cases h₂ : k = k₂
      · rw [btreeInsert, if_neg h₁, if_pos h₂] at hp
        rcases List.mem_cons.mp hp with hp | hp
        · exact hp ▸ hk
        · exact h p (List.mem_cons_of_mem _ hp)
      · rw [btreeInsert, if_neg h₁, if_neg h₂] at hp
        rcases List.mem_cons.mp hp with hp | hp
        · exact h p (hp ▸ List.mem_cons_self _ _)
        · exact ih (fun q hq => h q (List.mem_cons_of_mem _ hq)) p hp

theorem optOr_none_right (a : Option ProjectInfo) : optOr a none = a := by
  cases a <;> rfl

theorem optOr_assoc (a b c : Option ProjectInfo) :
    optOr (optOr a b) c = optOr a (optOr b c) := by
  cases a <;> cases b <;> rfl

/-! ### Helper lemmas about the discovery fold -/

theorem mem_keys_fold (root : FsPath) (entries : List DirEntry)
    (acc : List (String × ProjectInfo)) (a : String) :
    a ∈ keys (entries.foldl (scan_entry root) acc) ↔
      a ∈ keys acc ∨ a ∈ successful_names root entries := by
  induction entries generalizing acc with
  | nil => simp [successful_names, successful_infos]
  | cons e rest ih =>
    rw [List.foldl_cons, ih]
    cases he : entry_project root e with
    | none =>
      simp [scan_entry, he, successful_names, successful_infos, List.filterMap_cons]
    | some info =>
      simp only [scan_entry, he, successful_names, successful_infos,
        List.filterMap_cons, List.map_cons, List.mem_cons,
        mem_keys_btreeInsert]
      tauto

theorem sorted_keys_fold (root : FsPath) (entries : List DirEntry)
    (acc : List (String × ProjectInfo)) (h : (keys acc).Sorted (· < ·)) :
    (keys (entries.foldl (scan_entry root) acc)).Sorted (· < ·) := by
  induction entries generalizing acc with
  | nil => exact h
  | cons e rest ih =>
    rw [List.foldl_cons]
    apply ih
    cases he : entry_project root e with
    | none => simpa [scan_entry, he] using h
    | some info =>
      simp only [scan_entry, he]
      exact sorted_keys_btreeInsert _ _ _ h

theorem key_eq_name_fold (root : FsPath) (entries : List DirEntry)
    (acc : List (String × ProjectInfo))
    (h : ∀ p ∈ acc, Prod.fst p = (Prod.snd p).name) :
    ∀ p ∈ entries.foldl (scan_entry root) acc, Prod.fst p = (Prod.snd p).name := by
  induction entries generalizing acc with
  | nil => exact h
  | cons e rest ih =>
    rw [List.foldl_cons]
    apply ih
    cases he : entry_project root e with
    | none => simpa [scan_entry, he] using h
    | some info =>
      simp only [scan_entry, he]
      exact key_eq_name_btreeInsert info.name info acc rfl h

theorem lookupKey_fold (root : FsPath) (entries : List DirEntry)
    (acc : List (String × ProjectInfo)) (x : String) :
    lookupKey x (entries.foldl (scan_entry root) acc) =
      optOr (last_with_name x (successful_infos root entries)) (lookupKey x acc) := by
  induction entries generalizing acc with
  | nil => simp [successful_infos, last_with_name, optOr]
  | cons e rest ih =>
    rw [List.foldl_cons, ih]
    cases he : entry_project root e with
    | none =>
      simp [scan_entry, he, successful_infos, List.filterMap_cons]
    | some info =>
      simp only [scan_entry, he, successful_infos, List.filterMap_cons]
      rw [show (last_with_name x (info :: List.filterMap (entry_project root) rest)) =
            optOr (last_with_name x (List.filterMap (entry_project root) rest))
              (if info.name = x then some info else none) from rfl,
        optOr_assoc, lookupKey_btreeInsert]
      congr 1
      by_cases hx : x = info.name
      · rw [if_pos hx, if_pos hx.symm]
        rfl
      · rw [if_neg hx, if_neg (fun h => hx h.symm)]
        rfl

/-! ### Claim theorems -/

/-- C4: for every root directory, the size of the collection returned by
discovery equals the number of immediate subdirectories whose manifest exists
and parses successfully with a present string name field (distinct names
counted once); subdirectories lacking a manifest, or whose manifest is
unreadable, unparseable, or missing the name, contribute no entry. -/
theorem c4_collection_size (root : FsPath) (entries : List DirEntry) :
    ((find_projects root (some entries)).projects).length =
      (successful_names root entries).dedup.length := by
  have hsorted : (keys ((find_projects root (some entries)).projects)).Sorted (· < ·) :=
    sorted_keys_fold root entries [] (by simp [keys])
  have hnodup : (keys ((find_projects root (some entries)).projects)).Nodup :=
    hsorted.nodup
  have hmem : ∀ a, a ∈ keys ((find_projects root (some entries)).projects) ↔
      a ∈ successful_names root entries := by
    intro a
    have h := mem_keys_fold root entries [] a
    simpa [keys] using h
  have hfin : (keys ((find_projects root (some entries)).projects)).toFinset =
      (successful_names root entries).toFinset := by
    ext a
    simp only [List.mem_toFinset, hmem]
  calc ((find_projects root (some entries)).projects).length
      = (keys ((find_projects root (some entries)).projects)).length := by
        simp [keys]
    _ = (keys ((find_projects root (some entries)).projects)).toFinset.card :=
        (List.toFinset_card_of_nodup hnodup).symm
    _ = (successful_names root entries).toFinset.card := by rw [hfin]
    _ = (successful_names root entries).dedup.length := List.card_toFinset _

/-- C5: iterating any collection returned by discovery yields the projects in
strictly increasing lexicographic order of project name, with no duplicate
keys, regardless of the order in which the filesystem enumerated the
subdirectories. -/
theorem c5_sorted_iteration (root : FsPath) (listing : Option (List DirEntry)) :
    (keys ((find_projects root listing).projects)).Sorted (· < ·) ∧
    (keys ((find_projects root listing).projects)).Nodup := by
  cases listing with
  | none => constructor <;> simp [find_projects, keys]
  | some entries =>
    have hsorted := sorted_keys_fold root entries [] (by simp [keys])
    exact ⟨hsorted, hsorted.nodup⟩

/-- C6: the entry stored under any name is the last successfully parsed
project carrying that name (the later insertion silently replaces the earlier
one), and no name ever has more than one entry in the final collection. -/
theorem c6_duplicate_names_last_wins (root : FsPath) (entries : List DirEntry)
    (x : String) :
    lookupKey x ((find_projects root (some entries)).projects) =
      last_with_name x (successful_infos root entries) ∧
    (keys ((find_projects root (some entries)).projects)).count x ≤ 1 := by
  constructor
  · have h := lookupKey_fold root entries [] x
    rw [show lookupKey x ([] : List (String × ProjectInfo)) = none from rfl,
      optOr_none_right] at h
    exact h
  · have hsorted := sorted_keys_fold root entries [] (by simp [keys])
    exact List.nodup_iff_count_le_one.mp hsorted.nodup x

/-- C7: the manifest reader returns either a complete ProjectInfo — name from
`package.name`, optional description from `package.description`, path set to
the parent directory of the manifest — or no result at all; any failure yields no
result rather than an error, and no partial ProjectInfo is ever produced. -/
theorem c7_parse_all_or_nothing (path : FsPath) (doc : Option Toml) :
    parse_cargo_toml path doc = none ∨
    ∃ v package name parent,
      doc = some v ∧
      v.get ("package") = some package ∧
      ((package.get ("name")).bind Toml.as_str) = some name ∧
      path.parent = some parent ∧
      parse_cargo_toml path doc =
        some ⟨name, (package.get ("description")).bind Toml.as_str, parent⟩ := by
  cases doc with
  | none => left; rfl
  | some v =>
    cases hp : v.get ("package") with
    | none => left; simp [parse_cargo_toml, hp]
    | some package =>
      cases hn : package.get ("name") with
      | none => left; simp [parse_cargo_toml, hp, hn]
      | some nameVal =>
        cases hs : nameVal.as_str with
        | none => left; simp [parse_cargo_toml, hp, hn, hs]
        | some name =>
          cases hpar : path.parent with
          | none => left; simp [parse_cargo_toml, hp, hn, hs, hpar]
          | some parent =>
            right
            refine ⟨v, package, name, parent, rfl, ?_, ?_, ?_, ?_⟩
            · first
              | exact rfl
              | exact hp
            · simp [hn, hs]
            · exact rfl
            · simp [parse_cargo_toml, hp, hn, hs, hpar]

/-- C8: for every root directory that cannot be opened for listing, discovery
emits a diagnostic to the error stream and returns an empty collection
without aborting, and the session then takes the "no projects found" path. -/
theorem c8_unreadable_root_recovers (root : FsPath) (inputs : List String) :
    (find_projects root none).projects = [] ∧
    (find_projects root none).err_lines =
      ["Could not read directory: " ++ root.debugRepr] ∧
    display_projects ((find_projects root none).projects) inputs =
      ["No Rust projects found."] :=
  ⟨rfl, rfl, rfl⟩

/-- C9: in every collection returned by discovery, the map key of each entry
equals the `name` field of the ProjectInfo stored under it. -/
theorem c9_key_matches_name (root : FsPath) (listing : Option (List DirEntry)) :
    ∀ p ∈ (find_projects root listing).projects, Prod.fst p = (Prod.snd p).name := by
  cases listing with
  | none =>
    intro p hp
    simp [find_projects] at hp
  | some entries =>
    exact key_eq_name_fold root entries []
      (by intro p hp; simp at hp)

/-- Witness for C9: the scenario collection holds `beta` under key `beta`. -/
theorem c9_key_matches_name_witness :
    (("beta", (⟨"beta", some ("demo"), ⟨["home", "user", "rust", "beta"]⟩⟩ :
        ProjectInfo)) ∈ (find_projects scenarioRoot (some scenarioEntries)).projects) ∧
    Prod.fst (("beta", (⟨"beta", some ("demo"), ⟨["home", "user", "rust", "beta"]⟩⟩ :
        ProjectInfo))) =
      (Prod.snd (("beta", (⟨"beta", some ("demo"),
        ⟨["home", "user", "rust", "beta"]⟩⟩ : ProjectInfo)))).name :=
  ⟨by decide, c9_key_matches_name scenarioRoot (some scenarioEntries) _ (by decide)⟩

/-- `parseUsize` only produces values that fit in `usize`. -/
theorem parseUsize_lt_USIZE (s : String) (i : Nat) (h : parseUsize s = some i) :
    i < USIZE := by
  simp only [parseUsize] at h
  set digits :=
    (match s.data with
      | '+' :: rest => rest
      | l => l) with hd
  by_cases h₁ : digits.isEmpty = true
  · rw [if_pos h₁] at h
    exact absurd h (by simp)
  · rw [if_neg h₁] at h
    by_cases h₂ : digits.all Char.isDigit = true
    · rw [if_pos h₂] at h
      by_cases h₃ : digits.foldl (fun acc c => acc * 10 + (c.toNat - 48)) 0 < USIZE
      · rw [if_pos h₃] at h
        injection h with h
        exact h ▸ h₃
      · rw [if_neg h₃] at h
        exact absurd h (by simp)
    · rw [if_neg h₂] at h
      exact absurd h (by simp)

/-- An out-of-range selection (0, or above the count) reaches `None` after
the wrapping `index - 1`, provided the collection is smaller than `usize`. -/
theorem get_wrap_out_of_range (projects : List (String × ProjectInfo)) (i : Nat)
    (hlen : projects.length < USIZE) (hi : i < USIZE)
    (hout : i = 0 ∨ projects.length < i) :
    projects.get? ((i + USIZE - 1) % USIZE) = none := by
  have hpos : 0 < USIZE := by decide
  apply List.get?_eq_none.mpr
  rcases hout with hi0 | hgt
  · subst hi0
    have h1 : (0 + USIZE - 1) % USIZE = USIZE - 1 :=
      Nat.mod_eq_of_lt (by omega)
    rw [h1]
    omega
  · have h1 : i + USIZE - 1 = (i - 1) + USIZE := by omega
    rw [h1, Nat.add_mod_right, Nat.mod_eq_of_lt (by omega)]
    omega

/-- On a non-quit line that selects no valid project, the loop body prints
one of the two corrective messages and does not break. -/
theorem handle_input_invalid (projects : List (String × ProjectInfo)) (raw : String)
    (hlen : projects.length < USIZE)
    (hq : rustToLower (rustTrim raw) ≠ "q")
    (hsel : ∀ i, parseUsize (rustTrim raw) = some i → i = 0 ∨ projects.length < i) :
    handle_input projects raw =
      (["Invalid selection. Please enter a valid project number."], false) ∨
    handle_input projects raw =
      (["Please enter a valid number or \x27q\x27 to quit."], false) := by
  simp only [handle_input]
  rw [if_neg hq]
  cases hp : parseUsize (rustTrim raw) with
  | none => right; rfl
  | some i =>
    left
    have hnone := get_wrap_out_of_range projects i hlen
      (parseUsize_lt_USIZE _ i hp) (hsel i hp)
    rw [List.get?_eq_getElem?] at hnone
    simp [hnone]

/-- C1: in the interactive session over a non-empty collection, a line that
is neither the quit command nor a valid selection — `0`, numbers above the
project count, or non-numeric text — prints a corrective message and the
session goes on to read the next line; it never terminates the loop. -/
theorem c1_invalid_input_keeps_session (projects : List (String × ProjectInfo))
    (inputs : List String) (raw : String)
    (_hne : projects ≠ [])
    (hlen : projects.length < USIZE)
    (hq : rustToLower (rustTrim raw) ≠ "q")
    (hsel : ∀ i, parseUsize (rustTrim raw) = some i → i = 0 ∨ projects.length < i) :
    ∃ msg,
      (msg = "Invalid selection. Please enter a valid project number." ∨
        msg = "Please enter a valid number or \x27q\x27 to quit.") ∧
      handle_input projects raw = ([msg], false) ∧
      run_loop projects (raw :: inputs) =
        "> " :: msg :: run_loop projects inputs := by
  rcases handle_input_invalid projects raw hlen hq hsel with h | h
  · exact ⟨_, Or.inl rfl, h, by simp [run_loop, h]⟩
  · exact ⟨_, Or.inr rfl, h, by simp [run_loop, h]⟩

/-- Witness for C1: input `3` over the two scenario projects. -/
theorem c1_invalid_input_keeps_session_witness :
    (scenarioProjects ≠ [] ∧ scenarioProjects.length < USIZE ∧
      rustToLower (rustTrim ("3")) ≠ "q" ∧
      (∀ i, parseUsize (rustTrim ("3")) = some i →
        i = 0 ∨ scenarioProjects.length < i)) ∧
    (∃ msg,
      (msg = "Invalid selection. Please enter a valid project number." ∨
        msg = "Please enter a valid number or \x27q\x27 to quit.") ∧
      handle_input scenarioProjects ("3") = ([msg], false) ∧
      run_loop scenarioProjects ["3"] =
        "> " :: msg :: run_loop scenarioProjects []) := by
  have hs : ∀ i, parseUsize (rustTrim ("3")) = some i →
      i = 0 ∨ scenarioProjects.length < i := by
    intro i hi
    rw [show parseUsize (rustTrim ("3")) = some 3 from rfl] at hi
    injection hi with hi
    subst hi
    right
    decide
  exact ⟨⟨by decide, by decide, by decide, hs⟩,
    c1_invalid_input_keeps_session scenarioProjects [] ("3")
      (by decide) (by decide) (by decide) hs⟩

/-- C2: the detail view prints the name of the project, its description (or the
placeholder when absent), its path, and a derived run-from path equal to the
project path joined with `target/release`; in the two-project scenario,
selecting `2` prints name `beta`, description `demo`, and a run-path ending
in `beta/target/release`. -/
theorem c2_detail_view (info : ProjectInfo) :
    project_details_lines info =
      ["\nProject Details:",
       "Project Name: " ++ info.name,
       "Description: " ++ info.description.getD ("No description"),
       "Path: " ++ info.path.debugRepr,
       "You can run this project from: " ++
         reprOptStr (info.path.join ("target/release")).to_str] ∧
    handle_input scenarioProjects ("2") =
      (project_details_lines
        ⟨"beta", some ("demo"), ⟨["home", "user", "rust", "beta"]⟩⟩, false) ∧
    (∃ pre,
      ((⟨["home", "user", "rust", "beta"]⟩ : FsPath).join
        ("target/release")).render = pre ++ "beta/target/release") :=
  ⟨rfl, by decide, ⟨"home/user/rust/", rfl⟩⟩

/-- C3: the listing prints each project as
`"<1-based index>. <name> - <description or placeholder>"` in name-sorted
collection order; the scenario listing is exactly `1. alpha - No description`
then `2. beta - demo`. -/
theorem c3_listing_format (projects : List (String × ProjectInfo))
    (inputs : List String) (k : Nat) (h : projects ≠ []) :
    display_projects projects inputs =
      listing_lines projects
        ++ ["Enter the number of the project to view details, or \x27q\x27 to quit:"]
        ++ run_loop projects inputs ∧
    (listing_lines projects).get? k =
      (projects.get? k).map (fun p =>
        toString (k + 1) ++ ". " ++ p.1 ++ " - " ++
          p.2.description.getD ("No description")) ∧
    listing_lines scenarioProjects =
      ["1. alpha - No description", "2. beta - demo"] := by
  refine ⟨?_, ?_, by decide⟩
  · cases projects with
    | nil => exact absurd rfl h
    | cons a l => rfl
  · rw [listing_lines, List.get?_map, List.get?_enum]
    cases hk : projects.get? k with
    | none => rfl
    | some p => rfl

/-- Witness for C3: the scenario collection, quit input, index 0. -/
theorem c3_listing_format_witness :
    (scenarioProjects ≠ []) ∧
    (display_projects scenarioProjects ["q"] =
      listing_lines scenarioProjects
        ++ ["Enter the number of the project to view details, or \x27q\x27 to quit:"]
        ++ run_loop scenarioProjects ["q"] ∧
    (listing_lines scenarioProjects).get? 0 =
      (scenarioProjects.get? 0).map (fun p =>
        toString (0 + 1) ++ ". " ++ p.1 ++ " - " ++
          p.2.description.getD ("No description")) ∧
    listing_lines scenarioProjects =
      ["1. alpha - No description", "2. beta - demo"]) :=
  ⟨by decide, c3_listing_format scenarioProjects ["q"] 0 (by decide)⟩

/-- C10: a manifest whose `package.description` is present but not a string
still parses, with the description treated as absent, while a non-string
`package.name` makes the whole parse yield no result. -/
theorem c10_nonstring_description_tolerated
    (path parent : FsPath) (v package nameVal dv : Toml) (name : String)
    (hpkg : v.get ("package") = some package)
    (hname : package.get ("name") = some nameVal)
    (hstr : nameVal.as_str = some name)
    (hdesc : package.get ("description") = some dv)
    (hdstr : dv.as_str = none)
    (hpar : path.parent = some parent) :
    parse_cargo_toml path (some v) = some ⟨name, none, parent⟩ ∧
    (∀ w pkg nv, w.get ("package") = some pkg → pkg.get ("name") = some nv →
      nv.as_str = none → parse_cargo_toml path (some w) = none) := by
  constructor
  · simp [parse_cargo_toml, hpkg, hname, hstr, hdesc, hdstr, hpar]
  · intro w pkg nv h₁ h₂ h₃
    simp [parse_cargo_toml, h₁, h₂, h₃]

/-- Witness for C10: a manifest with string name `x` and integer description. -/
theorem c10_nonstring_description_tolerated_witness :
    ((Toml.table [("package",
        Toml.table [("name", Toml.str ("x")), ("description", Toml.integer 5)])]).get
        ("package") =
      some (Toml.table [("name", Toml.str ("x")), ("description", Toml.integer 5)]) ∧
    (Toml.table [("name", Toml.str ("x")), ("description", Toml.integer 5)]).get
        ("name") = some (Toml.str ("x")) ∧
    (Toml.str ("x")).as_str = some ("x") ∧
    (Toml.table [("name", Toml.str ("x")), ("description", Toml.integer 5)]).get
        ("description") = some (Toml.integer 5) ∧
    (Toml.integer 5).as_str = none ∧
    (⟨["r", "d"]⟩ : FsPath).parent = some ⟨["r"]⟩) ∧
    (parse_cargo_toml ⟨["r", "d"]⟩
        (some (Toml.table [("package",
          Toml.table [("name", Toml.str ("x")), ("description", Toml.integer 5)])])) =
      some ⟨"x", none, ⟨["r"]⟩⟩ ∧
    (∀ w pkg nv, w.get ("package") = some pkg → pkg.get ("name") = some nv →
      nv.as_str = none → parse_cargo_toml (⟨["r", "d"]⟩ : FsPath) (some w) = none)) :=
  ⟨⟨rfl, rfl, rfl, rfl, rfl, rfl⟩,
    c10_nonstring_description_tolerated ⟨["r", "d"]⟩ ⟨["r"]⟩
      (Toml.table [("package",
        Toml.table [("name", Toml.str ("x")), ("description", Toml.integer 5)])])
      (Toml.table [("name", Toml.str ("x")), ("description", Toml.integer 5)])
      (Toml.str ("x")) (Toml.integer 5) ("x") rfl rfl rfl rfl rfl rfl⟩
